import Mathlib

/-!
Verification of the normalization-and-matching engine of `reorder_invoices.py`.

Python strings are modelled as lists of Unicode codepoints (`Text := List Nat`);
documents carry their filename stem, the flags the scanner and the page reader
depend on, and an abstract page list. Library behaviour used by the script is
modelled at the codepoint level:

* `unicodedata.normalize("NFKC", ·)` is modelled as its width-folding action
  (the fullwidth block U+FF01–U+FF5E to ASCII, the ideographic space U+3000 to
  U+0020 — the script's own comment says "全角→半角", fullwidth to halfwidth)
  followed by canonical composition, modelled on the Greek
  iota/upsilon-with-dialytika-and-tonos family (U+0399/U+03A5/U+03B9/U+03C5
  with U+0308, and U+03CA/U+03CB with U+0301): the compositions reachable from
  the modelled uppercase mappings below;
* `re.sub(r"\s+", "", ·)` is modelled by removing every codepoint of the
  whitespace class used by Python's `\s` on `str`;
* `str.upper()` is modelled on the ASCII letters a–z together with the two
  SpecialCasing expansions U+0390 → U+0399 U+0308 U+0301 and
  U+03B0 → U+03A5 U+0308 U+0301, whose outputs are not NFKC-normal — the
  very interaction that breaks idempotence of `norm`;
* `re.fullmatch(r"\d{14}", ·)` is modelled with `\d` covering ASCII and
  fullwidth decimal digits.

Fallible library calls (`open`/`read` in `is_pdf_file`, `PdfReader` in the
page loops, `.items()` on `None`) are modelled with `Except Unit`.
-/

namespace RI

/-- Text is a Python `str`: a finite sequence of Unicode codepoints. -/
abbrev Text := List Nat

/-- NFKC width folding of one codepoint, the compatibility-decomposition part
of the modelled NFKC: fullwidth ASCII variants U+FF01–U+FF5E collapse to
U+0021–U+007E, ideographic space U+3000 to U+0020; every other codepoint is
left unchanged. -/
def nfkcChar (c : Nat) : Nat :=
  if 0xFF01 ≤ c ∧ c ≤ 0xFF5E then c - 0xFEE0
  else if c = 0x3000 then 0x20
  else c

/-- Canonical composition of one adjacent codepoint pair, modelled on the
Greek dialytika/tonos family: the compositions reachable from the modelled
`str.upper()` outputs. Every table entry's second component is the combining
dialytika U+0308 or the combining acute U+0301. -/
def composePair (a b : Nat) : Option Nat :=
  if a = 0x399 ∧ b = 0x308 then some 0x3AA
  else if a = 0x3A5 ∧ b = 0x308 then some 0x3AB
  else if a = 0x3B9 ∧ b = 0x308 then some 0x3CA
  else if a = 0x3C5 ∧ b = 0x308 then some 0x3CB
  else if a = 0x3CA ∧ b = 0x301 then some 0x390
  else if a = 0x3CB ∧ b = 0x301 then some 0x3B0
  else none

/-- Left-to-right canonical composition over a text, carrying the current
starter: when the starter composes with the next codepoint the composite
becomes the starter and composition continues; otherwise the starter is
emitted. -/
def composeAux (a : Nat) : Text → Text
  | [] => [a]
  | b :: rest =>
    match composePair a b with
    | some ab => composeAux ab rest
    | none => a :: composeAux b rest

/-- Canonical composition pass over a whole text. -/
def composeStr : Text → Text
  | [] => []
  | a :: rest => composeAux a rest

/-- The modelled `unicodedata.normalize("NFKC", t)`: width folding of each
codepoint followed by canonical composition. -/
def nfkcStr (t : Text) : Text :=
  composeStr (t.map nfkcChar)

/-- Membership in Python's `\s` class for `str` patterns: ASCII whitespace,
the C0 information separators, and the Unicode space separators. -/
def isSpaceCp (c : Nat) : Bool :=
  decide ((0x9 ≤ c ∧ c ≤ 0xD) ∨ (0x1C ≤ c ∧ c ≤ 0x1F) ∨ c = 0x20 ∨
    c = 0x85 ∨ c = 0xA0 ∨ c = 0x1680 ∨ (0x2000 ≤ c ∧ c ≤ 0x200A) ∨
    c = 0x2028 ∨ c = 0x2029 ∨ c = 0x202F ∨ c = 0x205F ∨ c = 0x3000)

/-- Membership in the bracket/punctuation character class removed by `norm`:
`[()（）【】\[\]「」『』“”"'、，．·•\-—]`. -/
def isBracketCp (c : Nat) : Bool :=
  decide (c = 0x28 ∨ c = 0x29 ∨ c = 0xFF08 ∨ c = 0xFF09 ∨
    c = 0x3010 ∨ c = 0x3011 ∨ c = 0x5B ∨ c = 0x5D ∨
    c = 0x300C ∨ c = 0x300D ∨ c = 0x300E ∨ c = 0x300F ∨
    c = 0x201C ∨ c = 0x201D ∨ c = 0x22 ∨ c = 0x27 ∨
    c = 0x3001 ∨ c = 0xFF0C ∨ c = 0xFF0E ∨ c = 0xB7 ∨
    c = 0x2022 ∨ c = 0x2D ∨ c = 0x2014)

/-- Single-codepoint component of the modelled `str.upper()`: the ASCII
letters a–z map to A–Z; other codepoints are left unchanged. Used to state
the behaviour of `upperFull` away from its SpecialCasing expansions. -/
def upperCp (c : Nat) : Nat :=
  if 0x61 ≤ c ∧ c ≤ 0x7A then c - 0x20 else c

/-- Uppercasing of one codepoint as `str.upper()` performs it, including the
one-to-many SpecialCasing expansions of Greek iota/upsilon with dialytika and
tonos, whose outputs are decomposed (not NFKC-normal): U+0390 ΐ →
U+0399 U+0308 U+0301 and U+03B0 ΰ → U+03A5 U+0308 U+0301; ASCII a–z map to
A–Z; other codepoints are left unchanged. -/
def upperFull (c : Nat) : List Nat :=
  if 0x61 ≤ c ∧ c ≤ 0x7A then [c - 0x20]
  else if c = 0x390 then [0x399, 0x308, 0x301]
  else if c = 0x3B0 then [0x3A5, 0x308, 0x301]
  else [c]

/-- The `norm` function of `reorder_invoices.py`: NFKC normalization (width
folding plus canonical composition), removal of all whitespace, removal of
the fixed bracket/punctuation set, uppercasing. -/
def norm (t : Text) : Text :=
  (((nfkcStr t).filter (fun c => !isSpaceCp c)).filter
    (fun c => !isBracketCp c)).flatMap upperFull

/-- One-codepoint summary of the `norm` pipeline on texts where canonical
composition and the SpecialCasing expansions never fire: `none` when the
width-folded codepoint is dropped by one of the two removal passes, otherwise
the uppercased folded codepoint. -/
def normChar (c : Nat) : Option Nat :=
  if isSpaceCp (nfkcChar c) then none
  else if isBracketCp (nfkcChar c) then none
  else some (upperCp (nfkcChar c))

/-- Membership in the program's intended input alphabet, on which the model
is composition-free: ASCII, the fullwidth block U+FF01–U+FF5E, the
ideographic space, CJK unified ideographs, and the whitespace and
bracket/punctuation sets removed by `norm`. Combining marks and the
special-cased Greek letters are outside this set. -/
def allowedCp (c : Nat) : Bool :=
  decide (c ≤ 0x7F ∨ (0xFF01 ≤ c ∧ c ≤ 0xFF5E) ∨ c = 0x3000 ∨
    (0x4E00 ≤ c ∧ c ≤ 0x9FFF)) || isSpaceCp c || isBracketCp c

/-- Codepoint of the underscore separator. -/
def usc : Nat := 0x5F

/-- The part of the text after the first occurrence of `sep`, when `sep`
occurs at all. -/
def splitRem (sep : Nat) : Text → Option Text
  | [] => none
  | c :: cs => if c = sep then some cs else splitRem sep cs

/-- The part of `s` after the first occurrence of `sep`, or all of `s` when
`sep` does not occur: this is Python's `s.split(sep, 1)[-1]` for a
one-codepoint separator. -/
def afterFirstSep (sep : Nat) (s : Text) : Text :=
  (splitRem sep s).getD s

/-- The `company_from_subject` function: the ledger-field extractor, taking
the text after the first underscore (the whole field when there is none) and
normalizing it. -/
def company_from_subject (subject : Text) : Text :=
  norm (afterFirstSep usc subject)

/-- Python's `s.split(sep)` for a one-codepoint separator: the maximal
separator-free pieces, empty pieces included; splitting the empty text
yields `[[]]`. -/
def splitSep (sep : Nat) : Text → List Text
  | [] => [[]]
  | c :: cs =>
    if c = sep then [] :: splitSep sep cs
    else
      match splitSep sep cs with
      | p :: ps => (c :: p) :: ps
      | [] => [[c]]

/-- Membership in Python's `\d` class, modelled on ASCII and fullwidth
decimal digits. -/
def isDigitCp (c : Nat) : Bool :=
  decide ((0x30 ≤ c ∧ c ≤ 0x39) ∨ (0xFF10 ≤ c ∧ c ≤ 0xFF19))

/-- Test for `re.fullmatch(r"\d{14}", p)`: exactly fourteen decimal digits. -/
def isTimestamp14 (p : Text) : Bool :=
  p.length == 14 && p.all isDigitCp

/-- The `company_from_filename` function: split the stem on underscores; with
exactly two segments normalize the second; otherwise normalize the first
segment from the end that is not a 14-digit timestamp token, falling back to
the whole stem when every segment is one. -/
def company_from_filename (stem : Text) : Text :=
  if (splitSep usc stem).length = 2 then norm ((splitSep usc stem).getD 1 [])
  else
    match (splitSep usc stem).reverse.find? (fun p => !isTimestamp14 p) with
    | some p => norm p
    | none => norm stem

/-- A candidate file of the scan: its filename stem, whether its extension
lowercases to `.pdf`, whether opening and reading its first five bytes
succeeds, whether those bytes are `%PDF-`, whether `PdfReader` can parse it,
and its pages (abstract page identifiers, in document order). -/
structure Doc where
  stem : Text
  extPdf : Bool
  canRead5 : Bool
  magicPdf : Bool
  parseOk : Bool
  pages : List Nat
deriving DecidableEq, Repr

/-- The `is_pdf_file` test: the `.pdf` extension qualifies outright;
otherwise the file qualifies when its first five bytes read successfully and
equal the magic header (an unreadable file is reported as not-a-PDF by the
`except` clause). -/
def is_pdf_file (d : Doc) : Bool :=
  d.extPdf || (d.canRead5 && d.magicPdf)

/-- Append `d` to the bucket of key `k` in an insertion-ordered association
list, creating the bucket at the end when absent: this is
`m.setdefault(k, []).append(d)` on a Python dict. -/
def mapAppend (m : List (Text × List Doc)) (k : Text) (d : Doc) :
    List (Text × List Doc) :=
  match m with
  | [] => [(k, [d])]
  | (k', ds) :: rest =>
    if k' = k then (k', ds ++ [d]) :: rest
    else (k', ds) :: mapAppend rest k d

/-- The `build_pdf_map` scan over the candidate files in discovery order:
every file passing `is_pdf_file` is appended to the bucket of its
filename-derived key. -/
def build_pdf_map (docs : List Doc) : List (Text × List Doc) :=
  docs.foldl
    (fun m d => if is_pdf_file d then mapAppend m (company_from_filename d.stem) d else m)
    []

/-- Lookup with default: Python's `pdf_map.get(k, [])`. -/
def mapGet (m : List (Text × List Doc)) (k : Text) : List Doc :=
  match m.find? (fun kv => decide (kv.1 = k)) with
  | some kv => kv.2
  | none => []

/-- Page extraction, `PdfReader(pdf).pages`: the document's pages when the
reader can parse it, an uncaught exception otherwise. -/
def readPages (d : Doc) : Except Unit (List Nat) :=
  if d.parseOk then .ok d.pages else .error ()

/-- Concatenated pages of one bucket, `for pdf in bucket: for pg in
PdfReader(pdf).pages: writer.add_page(pg)`: bucket order, failing when any
document fails to parse. -/
def appendBucket : List Doc → Except Unit (List Nat)
  | [] => .ok []
  | d :: ds =>
    match readPages d with
    | .ok p =>
      match appendBucket ds with
      | .ok r => .ok (p ++ r)
      | .error e => .error e
    | .error e => .error e

/-- Loop state of `process_excel`: the per-ledger `seen` and `used` key sets
(in first-insertion order), the pages added to the `PdfWriter`, and the
1-based-with-header row numbers appended to `missing_rows` (and painted red). -/
structure PState where
  seen : List Text
  used : List Text
  bundle : List Nat
  missingRows : List Nat
deriving DecidableEq, Repr

/-- Initial loop state: `seen, missing_rows, used = set(), [], set()` with a
fresh `PdfWriter`. -/
def initPState : PState := ⟨[], [], [], []⟩

/-- One iteration of the row loop of `process_excel` on the enumerated row
`(idx, subject)`: a key already seen is skipped outright; a fresh key is
added to `seen` and either matched (bucket pages appended, key marked used)
or recorded as missing row `idx + 2`. -/
def step (pm : List (Text × List Doc)) (st : PState) (row : Nat × Text) :
    Except Unit PState :=
  if company_from_subject row.2 ∈ st.seen then .ok st
  else if mapGet pm (company_from_subject row.2) = [] then
    .ok { st with
      seen := st.seen ++ [company_from_subject row.2],
      missingRows := st.missingRows ++ [row.1 + 2] }
  else
    match appendBucket (mapGet pm (company_from_subject row.2)) with
    | .ok pgs =>
      .ok { st with
        seen := st.seen ++ [company_from_subject row.2],
        used := st.used ++ [company_from_subject row.2],
        bundle := st.bundle ++ pgs }
    | .error e => .error e

/-- The row loop of `process_excel` over enumerated rows. -/
def processRows (pm : List (Text × List Doc)) :
    List (Nat × Text) → PState → Except Unit PState
  | [], st => .ok st
  | r :: rs, st =>
    match step pm st r with
    | .ok st2 => processRows pm rs st2
    | .error e => .error e

/-- The row loop run on a ledger's subject column from the initial state. -/
def runLedger (pm : List (Text × List Doc)) (rows : List Text) :
    Except Unit PState :=
  processRows pm rows.enum initPState

/-- The per-ledger unmatched dict: `{k: v for k, v in pdf_map.items() if k
not in used and k not in counter}`, where `counter` counts
`company_from_subject` over every row of the ledger. -/
def unmatchedOf (pm : List (Text × List Doc)) (used : List Text)
    (counterKeys : List Text) : List (Text × List Doc) :=
  pm.filter (fun kv => decide (kv.1 ∉ used ∧ kv.1 ∉ counterKeys))

/-- One ledger as the engine sees it: whether the required `科目名称` column
is present, and the subject column's raw values in row order. -/
structure Ledger where
  hasCol : Bool
  rows : List Text
deriving DecidableEq, Repr

/-- The `process_excel` function: with the required column missing it prints
and returns `None`; otherwise it runs the row loop and returns the unmatched
dict (file outputs are side effects outside the engine). -/
def process_excel (pm : List (Text × List Doc)) (led : Ledger) :
    Except Unit (Option (List (Text × List Doc))) :=
  if led.hasCol then
    match processRows pm led.rows.enum initPState with
    | .ok st => .ok (some (unmatchedOf pm st.used (led.rows.map company_from_subject)))
    | .error e => .error e
  else .ok none

/-- Merging one ledger's unmatched dict into the global one:
`unmatched_global.setdefault(k, []).extend(v)` for each item in order. -/
def extendAt (g : List (Text × List Doc)) (k : Text) (v : List Doc) :
    List (Text × List Doc) :=
  match g with
  | [] => [(k, v)]
  | (k', ds) :: rest =>
    if k' = k then (k', ds ++ v) :: rest
    else (k', ds) :: extendAt rest k v

/-- Fold of `extendAt` over one unmatched dict's items. -/
def mergeInto (g u : List (Text × List Doc)) : List (Text × List Doc) :=
  u.foldl (fun g2 kv => extendAt g2 kv.1 kv.2) g

/-- The ledger loop of `__main__`: each Excel file is processed in turn and
its unmatched dict merged into `unmatched_global`; a `None` return (missing
column) makes `unmatched.items()` raise `AttributeError`, modelled as the
error outcome that aborts the run. -/
def mainLoop (pm : List (Text × List Doc)) :
    List Ledger → List (Text × List Doc) → Except Unit (List (Text × List Doc))
  | [], g => .ok g
  | l :: ls, g =>
    match process_excel pm l with
    | .ok (some u) => mainLoop pm ls (mergeInto g u)
    | .ok none => .error ()
    | .error e => .error e

/-- Stable insertion of one element into a list sorted by the boolean
relation `le`, placing it before the first element it relates to. -/
def insertLe (le : α → α → Bool) (x : α) : List α → List α
  | [] => [x]
  | y :: ys => if le x y then x :: y :: ys else y :: insertLe le x ys

/-- Stable insertion sort by the boolean relation `le`, modelling Python's
stable `sorted`. -/
def sortLe (le : α → α → Bool) : List α → List α
  | [] => []
  | x :: xs => insertLe le x (sortLe le xs)

/-- Strict codepoint-lexicographic order on texts: Python's `<` on `str`. -/
def lexLt : Text → Text → Bool
  | [], [] => false
  | [], _ :: _ => true
  | _ :: _, [] => false
  | a :: as, b :: bs => decide (a < b) || (decide (a = b) && lexLt as bs)

/-- Comparison used by `sorted(unmatched_global.items())`: item tuples are
ordered by their first component, the key (keys are distinct in a dict, so
the tie on values never arises). -/
def keyLe (x y : Text × List Doc) : Bool :=
  lexLt x.1 y.1 || decide (x.1 = y.1)

/-- Concatenated pages of a list of buckets in list order. -/
def appendPairs : List (Text × List Doc) → Except Unit (List Nat)
  | [] => .ok []
  | kv :: rest =>
    match appendBucket kv.2 with
    | .ok p =>
      match appendPairs rest with
      | .ok r => .ok (p ++ r)
      | .error e => .error e
    | .error e => .error e

/-- The global writer loop of `__main__`: `for comp, files in
sorted(unmatched_global.items())`, appending every page of every file. -/
def globalBundle (g : List (Text × List Doc)) : Except Unit (List Nat) :=
  appendPairs (sortLe keyLe g)

/-- Modelled from the spec: the spec's §4.5 description of the global
leftover bundle, "iterating leftover buckets sorted by descending document
count"; stated for comparison with `globalBundle`, which is what the source
builds. -/
def specGlobalBundleByCount (g : List (Text × List Doc)) : Except Unit (List Nat) :=
  appendPairs (sortLe (fun x y => decide (y.2.length ≤ x.2.length)) g)

/-- Observable outcome of one whole run: the accumulated global unmatched
dict and the page sequence of the global leftover bundle. -/
structure RunOutcome where
  unmatchedGlobal : List (Text × List Doc)
  bundle : List Nat
deriving DecidableEq, Repr

/-- One whole run of `__main__` over a document pool and a sequence of
ledgers: build the pool, process each ledger accumulating
`unmatched_global`, then build the global leftover bundle. -/
def runAll (docs : List Doc) (ledgers : List Ledger) : Except Unit RunOutcome :=
  match mainLoop (build_pdf_map docs) ledgers [] with
  | .ok g =>
    match globalBundle g with
    | .ok b => .ok ⟨g, b⟩
    | .error e => .error e
  | .error e => .error e

/-- Example document: a healthy one-page PDF whose stem `X_K` yields key `K`. -/
def docK : Doc := ⟨[0x58, 0x5F, 0x4B], true, true, true, true, [1]⟩

/-- Example document: a healthy one-page PDF whose stem `X_M` yields key `M`. -/
def docM : Doc := ⟨[0x58, 0x5F, 0x4D], true, true, true, true, [2]⟩

/-- Example document: the stem `（）` (fullwidth parentheses) normalizes to
the empty key, so the scan buckets this PDF under the empty string. -/
def docEmptyKey : Doc := ⟨[0xFF08, 0xFF09], true, true, true, true, [1, 2]⟩

/-- Example document: carries the `.pdf` extension (so the scan keeps it
without reading it) but cannot be opened or parsed; stem `X_K` yields key
`K`. -/
def docBroken : Doc := ⟨[0x58, 0x5F, 0x4B], true, false, false, false, [9]⟩

/-- Example document: lacks the `.pdf` extension and cannot be opened, so the
magic-header check fails with an exception and the scan drops it. -/
def docUnreadable : Doc := ⟨[0x58], false, false, false, false, []⟩

/-- Example document: one page under key `A`. -/
def docA : Doc := ⟨[0x41], true, true, true, true, [10]⟩

/-- Example document: first of two pages under key `B`. -/
def docB1 : Doc := ⟨[0x42], true, true, true, true, [20]⟩

/-- Example document: second of two pages under key `B`. -/
def docB2 : Doc := ⟨[0x42], true, true, true, true, [21]⟩

/-- Example global unmatched dict: bucket `B` with two documents listed
before bucket `A` with one. -/
def exampleLeftovers : List (Text × List Doc) :=
  [([0x42], [docB1, docB2]), ([0x41], [docA])]

theorem charwise_eq_filterMap (t : Text) :
    (((t.map nfkcChar).filter (fun c => !isSpaceCp c)).filter
      (fun c => !isBracketCp c)).map upperCp = t.filterMap normChar := by
  induction t with
  | nil => rfl
  | cons c cs ih =>
    by_cases hs : isSpaceCp (nfkcChar c) <;>
      by_cases hb : isBracketCp (nfkcChar c) <;>
        simp [normChar, hs, hb, List.filterMap_cons] <;>
          simpa using ih

theorem composePair_none (a : Nat) {b : Nat} (hb : b ≠ 0x308 ∧ b ≠ 0x301) :
    composePair a b = none := by
  unfold composePair
  rw [if_neg (by omega), if_neg (by omega), if_neg (by omega), if_neg (by omega),
    if_neg (by omega), if_neg (by omega)]

theorem composeAux_inert (a : Nat) :
    ∀ l : Text, (∀ c ∈ l, c ≠ 0x308 ∧ c ≠ 0x301) → composeAux a l = a :: l := by
  intro l
  induction l generalizing a with
  | nil => intro _; rfl
  | cons b rest ih =>
    intro h
    unfold composeAux
    rw [composePair_none a (h b (List.mem_cons_self b rest)),
      ih b (fun c hc => h c (List.mem_cons_of_mem b hc))]

theorem composeStr_inert (l : Text) (h : ∀ c ∈ l, c ≠ 0x308 ∧ c ≠ 0x301) :
    composeStr l = l := by
  cases l with
  | nil => rfl
  | cons a rest =>
    unfold composeStr
    exact composeAux_inert a rest (fun c hc => h c (List.mem_cons_of_mem a hc))

theorem upperFull_eq_single {d : Nat} (h1 : d ≠ 0x390) (h2 : d ≠ 0x3B0) :
    upperFull d = [upperCp d] := by
  unfold upperFull upperCp
  by_cases hl : 0x61 ≤ d ∧ d ≤ 0x7A
  · rw [if_pos hl, if_pos hl]
  · rw [if_neg hl, if_neg h1, if_neg h2, if_neg hl]

theorem flatMap_eq_map_of_single {α β : Type} {f : α → List β} {g : α → β}
    (l : List α) (h : ∀ x ∈ l, f x = [g x]) : l.flatMap f = l.map g := by
  induction l with
  | nil => rfl
  | cons x xs ih =>
    rw [List.flatMap_cons, h x (List.mem_cons_self x xs),
      ih (fun y hy => h y (List.mem_cons_of_mem x hy)), List.map_cons,
      List.singleton_append]

theorem nfkcChar_cases (c : Nat) :
    (0xFF01 ≤ c ∧ c ≤ 0xFF5E ∧ nfkcChar c = c - 0xFEE0) ∨
    (¬(0xFF01 ≤ c ∧ c ≤ 0xFF5E) ∧ c = 0x3000 ∧ nfkcChar c = 0x20) ∨
    (¬(0xFF01 ≤ c ∧ c ≤ 0xFF5E) ∧ c ≠ 0x3000 ∧ nfkcChar c = c) := by
  unfold nfkcChar
  by_cases h1 : 0xFF01 ≤ c ∧ c ≤ 0xFF5E
  · rw [if_pos h1]
    exact Or.inl ⟨h1.1, h1.2, rfl⟩
  · by_cases h2 : c = 0x3000
    · rw [if_neg h1, if_pos h2]
      exact Or.inr (Or.inl ⟨h1, h2, rfl⟩)
    · rw [if_neg h1, if_neg h2]
      exact Or.inr (Or.inr ⟨h1, h2, rfl⟩)

theorem nfkcChar_fix {d : Nat} (h1 : ¬(0xFF01 ≤ d ∧ d ≤ 0xFF5E)) (h2 : d ≠ 0x3000) :
    nfkcChar d = d := by
  unfold nfkcChar
  rw [if_neg h1, if_neg h2]

theorem upperCp_low {d : Nat} (h : 0x61 ≤ d ∧ d ≤ 0x7A) : upperCp d = d - 0x20 := by
  unfold upperCp; rw [if_pos h]

theorem upperCp_other {d : Nat} (h : ¬(0x61 ≤ d ∧ d ≤ 0x7A)) : upperCp d = d := by
  unfold upperCp; rw [if_neg h]

theorem isSpaceCp_false {e : Nat}
    (h : ¬((0x9 ≤ e ∧ e ≤ 0xD) ∨ (0x1C ≤ e ∧ e ≤ 0x1F) ∨ e = 0x20 ∨
      e = 0x85 ∨ e = 0xA0 ∨ e = 0x1680 ∨ (0x2000 ≤ e ∧ e ≤ 0x200A) ∨
      e = 0x2028 ∨ e = 0x2029 ∨ e = 0x202F ∨ e = 0x205F ∨ e = 0x3000)) :
    isSpaceCp e = false := by
  unfold isSpaceCp
  exact decide_eq_false h

theorem isBracketCp_false {e : Nat}
    (h : ¬(e = 0x28 ∨ e = 0x29 ∨ e = 0xFF08 ∨ e = 0xFF09 ∨
      e = 0x3010 ∨ e = 0x3011 ∨ e = 0x5B ∨ e = 0x5D ∨
      e = 0x300C ∨ e = 0x300D ∨ e = 0x300E ∨ e = 0x300F ∨
      e = 0x201C ∨ e = 0x201D ∨ e = 0x22 ∨ e = 0x27 ∨
      e = 0x3001 ∨ e = 0xFF0C ∨ e = 0xFF0E ∨ e = 0xB7 ∨
      e = 0x2022 ∨ e = 0x2D ∨ e = 0x2014)) :
    isBracketCp e = false := by
  unfold isBracketCp
  exact decide_eq_false h

theorem normChar_fix {c e : Nat} (h : normChar c = some e) : normChar e = some e := by
  unfold normChar at h
  by_cases hs : isSpaceCp (nfkcChar c)
  · simp [hs] at h
  · by_cases hb : isBracketCp (nfkcChar c)
    · simp [hs, hb] at h
    · rw [if_neg (by simp [hs]), if_neg (by simp [hb])] at h
      have he : e = upperCp (nfkcChar c) := (Option.some.injEq _ _ ▸ h).symm
      have hs0 : isSpaceCp (nfkcChar c) = false := by simpa using hs
      have hb0 : isBracketCp (nfkcChar c) = false := by simpa using hb
      have hd : (0x21 ≤ nfkcChar c ∧ nfkcChar c ≤ 0x7E) ∨
          (¬(0xFF01 ≤ nfkcChar c ∧ nfkcChar c ≤ 0xFF5E) ∧ nfkcChar c ≠ 0x3000) := by
        rcases nfkcChar_cases c with ⟨ha, hb1, hc1⟩ | ⟨ha, hb1, hc1⟩ | ⟨ha, hb1, hc1⟩
        · left; omega
        · exfalso
          rw [hc1] at hs0
          simp [isSpaceCp] at hs0
        · right; rw [hc1]; exact ⟨ha, hb1⟩
      by_cases hl : 0x61 ≤ nfkcChar c ∧ nfkcChar c ≤ 0x7A
      · have he2 : e = nfkcChar c - 0x20 := by rw [he, upperCp_low hl]
        have heb : 0x41 ≤ e ∧ e ≤ 0x5A := by omega
        have hnf : nfkcChar e = e := nfkcChar_fix (by omega) (by omega)
        unfold normChar
        rw [hnf, isSpaceCp_false (by omega), isBracketCp_false (by omega),
          upperCp_other (by omega)]
        simp
      · have he2 : e = nfkcChar c := by rw [he, upperCp_other hl]
        have hnf : nfkcChar e = e := by
          apply nfkcChar_fix
          · rcases hd with hd | hd
            · omega
            · rw [he2]; exact hd.1
          · rcases hd with hd | hd
            · omega
            · rw [he2]; exact hd.2
        unfold normChar
        rw [hnf, he2, hs0, hb0, upperCp_other hl]
        simp

theorem filterMap_fix_idem {f : Nat → Option Nat}
    (hf : ∀ c e, f c = some e → f e = some e) (t : List Nat) :
    (t.filterMap f).filterMap f = t.filterMap f := by
  induction t with
  | nil => rfl
  | cons c cs ih =>
    rw [List.filterMap_cons]
    cases h : f c with
    | none => simpa using ih
    | some e => rw [List.filterMap_cons, hf c e h, ih]

theorem nfkcChar_of_allowed {c : Nat} (h : allowedCp c = true) :
    nfkcChar c ≠ 0x308 ∧ nfkcChar c ≠ 0x301 ∧ nfkcChar c ≠ 0x390 ∧
      nfkcChar c ≠ 0x3B0 := by
  unfold allowedCp isSpaceCp isBracketCp at h
  simp only [Bool.or_eq_true, decide_eq_true_eq] at h
  rcases nfkcChar_cases c with ⟨h1, h2, h3⟩ | ⟨h1, h2, h3⟩ | ⟨h1, h2, h3⟩ <;>
    rw [h3] <;> refine ⟨by omega, by omega, by omega, by omega⟩

theorem norm_eq_filterMap_of_allowed (t : Text) (h : ∀ c ∈ t, allowedCp c = true) :
    norm t = t.filterMap normChar := by
  have hfold : ∀ d ∈ t.map nfkcChar, d ≠ 0x308 ∧ d ≠ 0x301 := by
    intro d hd
    rcases List.mem_map.mp hd with ⟨c, hc, rfl⟩
    exact ⟨(nfkcChar_of_allowed (h c hc)).1, (nfkcChar_of_allowed (h c hc)).2.1⟩
  have hstr : nfkcStr t = t.map nfkcChar := by
    unfold nfkcStr
    exact composeStr_inert _ hfold
  have hsingle : ∀ d ∈ ((t.map nfkcChar).filter (fun c => !isSpaceCp c)).filter
      (fun c => !isBracketCp c), upperFull d = [upperCp d] := by
    intro d hd
    have hd2 : d ∈ t.map nfkcChar :=
      List.mem_of_mem_filter (List.mem_of_mem_filter hd)
    rcases List.mem_map.mp hd2 with ⟨c, hc, rfl⟩
    exact upperFull_eq_single (nfkcChar_of_allowed (h c hc)).2.2.1
      (nfkcChar_of_allowed (h c hc)).2.2.2
  unfold norm
  rw [hstr, flatMap_eq_map_of_single _ hsingle, charwise_eq_filterMap]

theorem normChar_allowed {c e : Nat} (hc : allowedCp c = true)
    (h : normChar c = some e) : allowedCp e = true := by
  unfold normChar at h
  by_cases hs : isSpaceCp (nfkcChar c)
  · simp [hs] at h
  · by_cases hb : isBracketCp (nfkcChar c)
    · simp [hs, hb] at h
    · rw [if_neg (by simp [hs]), if_neg (by simp [hb])] at h
      have he : e = upperCp (nfkcChar c) := (Option.some.injEq _ _ ▸ h).symm
      have hd : (0x21 ≤ nfkcChar c ∧ nfkcChar c ≤ 0x7E) ∨ nfkcChar c = 0x20 ∨
          nfkcChar c = c := by
        rcases nfkcChar_cases c with ⟨h1, h2, h3⟩ | ⟨h1, h2, h3⟩ | ⟨h1, h2, h3⟩
        · left; omega
        · right; left; omega
        · right; right; omega
      unfold allowedCp isSpaceCp isBracketCp at hc ⊢
      simp only [Bool.or_eq_true, decide_eq_true_eq] at hc ⊢
      unfold upperCp at he
      by_cases hl : 0x61 ≤ nfkcChar c ∧ nfkcChar c ≤ 0x7A
      · rw [if_pos hl] at he
        omega
      · rw [if_neg hl] at he
        rcases hd with hd | hd | hd
        · omega
        · omega
        · rw [he, hd]
          exact hc

theorem splitRem_none {sep : Nat} {s : Text} (h : sep ∉ s) : splitRem sep s = none := by
  induction s with
  | nil => rfl
  | cons c cs ih =>
    have h1 : ¬(c = sep) := by intro hc; exact h (by simp [hc])
    unfold splitRem
    rw [if_neg h1]
    exact ih (fun hm => h (List.mem_cons_of_mem c hm))

theorem splitSep_no_sep {sep : Nat} {s : Text} (h : sep ∉ s) :
    splitSep sep s = [s] := by
  induction s with
  | nil => rfl
  | cons c cs ih =>
    have h1 : ¬(c = sep) := by intro hc; exact h (by simp [hc])
    unfold splitSep
    rw [if_neg h1, ih (fun hm => h (List.mem_cons_of_mem c hm))]

theorem find?_append_all_fail {α : Type} (pred : α → Bool) :
    ∀ (pre : List α) (p : α) (post : List α),
      (∀ q ∈ pre, pred q = false) → pred p = true →
      List.find? pred (pre ++ p :: post) = some p := by
  intro pre
  induction pre with
  | nil =>
    intro p post _ hp
    simpa using List.find?_cons_of_pos post hp
  | cons q qs ih =>
    intro p post hpre hp
    have hq : pred q = false := hpre q (List.mem_cons_self q qs)
    rw [List.cons_append, List.find?_cons_of_neg _ (by simp [hq]),
      ih p post (fun x hx => hpre x (List.mem_cons_of_mem q hx)) hp]

/-- Counterexample to C7: `norm` is not idempotent on all strings. For the
input ΐ (U+0390), `str.upper()` emits the decomposed SpecialCasing sequence
U+0399 U+0308 U+0301, which the second pass's NFKC canonically recomposes to
U+03AA U+0301 — so normalizing twice differs from normalizing once. -/
theorem c7_counterexample : norm (norm [0x390]) ≠ norm [0x390] := by
  decide

/-- C7 as amended: `norm` is idempotent on every string drawn from the
program's intended alphabet — ASCII, the fullwidth block U+FF01–U+FF5E, the
ideographic space, CJK unified ideographs, and the whitespace and
bracket/punctuation sets `norm` removes — where no canonical composition or
SpecialCasing expansion can fire; it is not idempotent on all strings (see
the counterexample at U+0390). -/
theorem c7_idempotent_on_program_alphabet (t : Text)
    (h : ∀ c ∈ t, allowedCp c = true) : norm (norm t) = norm t := by
  have h2 : ∀ e ∈ t.filterMap normChar, allowedCp e = true := by
    intro e he
    rcases List.mem_filterMap.mp he with ⟨c, hc, hce⟩
    exact normChar_allowed (h c hc) hce
  rw [norm_eq_filterMap_of_allowed t h, norm_eq_filterMap_of_allowed _ h2,
    filterMap_fix_idem (fun c e hh => normChar_fix hh)]

/-- Witness for C7 as amended: a mixed ASCII/fullwidth/bracket/CJK text —
lowercase `a`, fullwidth `Ａ`, `(`, and 中 — normalizes idempotently. -/
theorem c7_witness :
    norm (norm [0x61, 0xFF21, 0x28, 0x4E2D]) = norm [0x61, 0xFF21, 0x28, 0x4E2D] :=
  c7_idempotent_on_program_alphabet [0x61, 0xFF21, 0x28, 0x4E2D] (by decide)

/-- C10: for every counterparty field string containing no underscore, the
ledger-field extractor `company_from_subject` returns the normalization of
the entire string: the split-after-first-underscore step degenerates to the
whole input. -/
theorem c10_subject_without_underscore (s : Text) (h : usc ∉ s) :
    company_from_subject s = norm s := by
  unfold company_from_subject afterFirstSep
  rw [splitRem_none h]
  rfl

/-- Witness for C10 at the underscore-less subject `AB`. -/
theorem c10_witness : company_from_subject [0x41, 0x42] = norm [0x41, 0x42] :=
  c10_subject_without_underscore [0x41, 0x42] (by decide)

/-- C8: the filename key extractor returns the normalization of the second
segment when the stem splits on underscores into exactly two segments;
otherwise the normalization of the first segment, scanning from the end,
that is not an exactly-14-digit token; the normalization of the whole stem
when every segment is a 14-digit token; and for a stem with zero
underscores, the normalization of the whole stem. -/
theorem c8_company_from_filename_cases (stem : Text) :
    (∀ a b : Text, splitSep usc stem = [a, b] →
      company_from_filename stem = norm b) ∧
    (∀ (pre : List Text) (p : Text) (post : List Text),
      (splitSep usc stem).length ≠ 2 →
      (splitSep usc stem).reverse = pre ++ p :: post →
      (∀ q ∈ pre, isTimestamp14 q = true) → isTimestamp14 p = false →
      company_from_filename stem = norm p) ∧
    ((splitSep usc stem).length ≠ 2 →
      (∀ q ∈ splitSep usc stem, isTimestamp14 q = true) →
      company_from_filename stem = norm stem) ∧
    (usc ∉ stem → company_from_filename stem = norm stem) := by
  refine ⟨?_, ?_, ?_, ?_⟩
  · intro a b h
    unfold company_from_filename
    rw [h]
    rfl
  · intro pre p post hlen hdecomp hpre hp
    unfold company_from_filename
    rw [if_neg hlen, hdecomp,
      find?_append_all_fail _ pre p post (fun q hq => by simp [hpre q hq]) (by simp [hp])]
  · intro hlen hall
    unfold company_from_filename
    rw [if_neg hlen]
    have hnone : (splitSep usc stem).reverse.find? (fun p => !isTimestamp14 p) = none := by
      rw [List.find?_eq_none]
      intro x hx
      simp [hall x (List.mem_reverse.mp hx)]
    rw [hnone]
  · intro h
    have hsplit : splitSep usc stem = [stem] := splitSep_no_sep h
    unfold company_from_filename
    rw [hsplit]
    by_cases hts : isTimestamp14 stem
    · have hnone : ([stem] : List Text).reverse.find? (fun p => !isTimestamp14 p) = none := by
        rw [List.find?_eq_none]
        intro x hx
        simp at hx
        simp [hx, hts]
      rw [if_neg (by simp), hnone]
    · have hsome : ([stem] : List Text).reverse.find? (fun p => !isTimestamp14 p) = some stem := by
        simp only [List.reverse_singleton]
        exact List.find?_cons_of_pos _ (by simp [hts])
      rw [if_neg (by simp), hsome]

/-- Witness for C8: the two-segment stem `A_B` yields the second segment, the
three-segment stem `A_B_<14 digits>` yields the last non-timestamp segment
scanning from the end, and the underscore-less stem `AB` yields the whole
stem. -/
theorem c8_witness :
    company_from_filename [0x41, 0x5F, 0x42] = norm [0x42] ∧
    company_from_filename
      [0x41, 0x5F, 0x42, 0x5F,
        0x31, 0x32, 0x33, 0x34, 0x35, 0x36, 0x37, 0x38, 0x39, 0x30,
        0x31, 0x32, 0x33, 0x34] = norm [0x42] ∧
    company_from_filename [0x41, 0x42] = norm [0x41, 0x42] :=
  ⟨(c8_company_from_filename_cases [0x41, 0x5F, 0x42]).1 [0x41] [0x42] (by decide),
   (c8_company_from_filename_cases
      [0x41, 0x5F, 0x42, 0x5F,
        0x31, 0x32, 0x33, 0x34, 0x35, 0x36, 0x37, 0x38, 0x39, 0x30,
        0x31, 0x32, 0x33, 0x34]).2.1
      [[0x31, 0x32, 0x33, 0x34, 0x35, 0x36, 0x37, 0x38, 0x39, 0x30,
        0x31, 0x32, 0x33, 0x34]] [0x42] [[0x41]]
      (by decide) (by decide) (by decide) (by decide),
   (c8_company_from_filename_cases [0x41, 0x42]).2.2.2 (by decide)⟩

theorem step_of_seen (pm : List (Text × List Doc)) (st : PState) (r : Nat × Text)
    (h : company_from_subject r.2 ∈ st.seen) : step pm st r = .ok st := by
  unfold step
  rw [if_pos h]

theorem step_of_missing (pm : List (Text × List Doc)) (st : PState) (r : Nat × Text)
    (h1 : company_from_subject r.2 ∉ st.seen)
    (h2 : mapGet pm (company_from_subject r.2) = []) :
    step pm st r = .ok { st with
      seen := st.seen ++ [company_from_subject r.2],
      missingRows := st.missingRows ++ [r.1 + 2] } := by
  unfold step
  rw [if_neg h1, if_pos h2]

theorem step_of_matched (pm : List (Text × List Doc)) (st : PState) (r : Nat × Text)
    (pgs : List Nat) (h1 : company_from_subject r.2 ∉ st.seen)
    (h2 : mapGet pm (company_from_subject r.2) ≠ [])
    (h3 : appendBucket (mapGet pm (company_from_subject r.2)) = .ok pgs) :
    step pm st r = .ok { st with
      seen := st.seen ++ [company_from_subject r.2],
      used := st.used ++ [company_from_subject r.2],
      bundle := st.bundle ++ pgs } := by
  unfold step
  rw [if_neg h1, if_neg h2, h3]

theorem step_of_error (pm : List (Text × List Doc)) (st : PState) (r : Nat × Text)
    (h1 : company_from_subject r.2 ∉ st.seen)
    (h2 : mapGet pm (company_from_subject r.2) ≠ [])
    (h3 : appendBucket (mapGet pm (company_from_subject r.2)) = .error ()) :
    step pm st r = .error () := by
  unfold step
  rw [if_neg h1, if_neg h2, h3]

theorem processRows_cons (pm : List (Text × List Doc)) (r : Nat × Text)
    (rs : List (Nat × Text)) (st : PState) :
    processRows pm (r :: rs) st =
      match step pm st r with
      | .ok st2 => processRows pm rs st2
      | .error e => .error e := rfl

theorem processRows_append (pm : List (Text × List Doc)) (xs ys : List (Nat × Text)) :
    ∀ st : PState, processRows pm (xs ++ ys) st =
      match processRows pm xs st with
      | .ok st2 => processRows pm ys st2
      | .error e => .error e := by
  induction xs with
  | nil => intro st; rfl
  | cons r rs ih =>
    intro st
    rw [List.cons_append, processRows_cons, processRows_cons]
    cases h : step pm st r with
    | ok st2 => exact ih st2
    | error e => rfl

theorem appendBucket_error {ds : List Doc} (h : ∃ d ∈ ds, d.parseOk = false) :
    appendBucket ds = .error () := by
  induction ds with
  | nil => simp at h
  | cons d rest ih =>
    rcases h with ⟨x, hx, hpx⟩
    rcases List.mem_cons.mp hx with rfl | hx2
    · unfold appendBucket readPages
      rw [if_neg (by simp [hpx])]
    · by_cases hd : d.parseOk = true
      · unfold appendBucket
        rw [ih ⟨x, hx2, hpx⟩]
        unfold readPages
        rw [if_pos hd]
      · unfold appendBucket readPages
        rw [if_neg hd]

/-- C6: within one ledger, the pages of a matched key's bucket are appended
to the output bundle exactly once — on the first row occurrence of that
normalized key, in bucket order — and later rows with the same key never
re-append pages: processing a row whose key is already in `seen` leaves the
run of the loop unchanged, while a first occurrence of a matched key appends
exactly its bucket's pages. -/
theorem c6_first_occurrence_appends_once (pm : List (Text × List Doc))
    (rows more : List (Nat × Text)) (r : Nat × Text) (st0 st1 : PState)
    (h : processRows pm rows st0 = .ok st1) :
    (company_from_subject r.2 ∈ st1.seen →
      processRows pm (rows ++ r :: more) st0 = processRows pm (rows ++ more) st0) ∧
    (company_from_subject r.2 ∉ st1.seen →
      mapGet pm (company_from_subject r.2) ≠ [] →
      ∀ pgs, appendBucket (mapGet pm (company_from_subject r.2)) = .ok pgs →
        processRows pm (rows ++ [r]) st0 = .ok { st1 with
          seen := st1.seen ++ [company_from_subject r.2],
          used := st1.used ++ [company_from_subject r.2],
          bundle := st1.bundle ++ pgs }) := by
  constructor
  · intro hseen
    rw [processRows_append pm rows (r :: more) st0, h,
      processRows_append pm rows more st0, h]
    show processRows pm (r :: more) st1 = processRows pm more st1
    rw [processRows_cons, step_of_seen pm st1 r hseen]
  · intro h1 h2 pgs h3
    rw [processRows_append pm rows [r] st0, h]
    show processRows pm [r] st1 = _
    rw [processRows_cons, step_of_matched pm st1 r pgs h1 h2 h3]
    rfl

/-- Witness for C6: one matched row appends the bucket of key `K` once. -/
theorem c6_witness :
    processRows (build_pdf_map [docK]) [(0, [0x41, 0x5F, 0x4B])] initPState =
      .ok ⟨[[0x4B]], [[0x4B]], [1], []⟩ :=
  (c6_first_occurrence_appends_once (build_pdf_map [docK]) [] []
      (0, [0x41, 0x5F, 0x4B]) initPState initPState rfl).2
    (by decide) (by decide) [1] rfl

/-- Counterexample to C2: with an empty pool and the rows `A`, `A`, the first
row is flagged as row 2 but the duplicate row (which would be row 3) is not
added to the flagged list — duplicates of a Missing key are skipped, not
flagged. -/
theorem c2_counterexample :
    runLedger [] [[0x41], [0x41]] = .ok ⟨[[0x41]], [], [], [2]⟩ ∧
    (3 : Nat) ∉ ([2] : List Nat) := by
  constructor
  · rfl
  · decide

/-- C2 as amended: a later row whose normalized key equals an earlier row's
is skipped outright — the loop state (bundle, used set, flagged rows) is
unchanged, so a duplicate of a Missing key is never flagged under its own
row index; only a first occurrence of a missing key appends its own row
index to the flagged list. -/
theorem c2_duplicate_rows_skipped (pm : List (Text × List Doc)) (st : PState)
    (r : Nat × Text) :
    (company_from_subject r.2 ∈ st.seen → step pm st r = .ok st) ∧
    (company_from_subject r.2 ∉ st.seen →
      mapGet pm (company_from_subject r.2) = [] →
      step pm st r = .ok { st with
        seen := st.seen ++ [company_from_subject r.2],
        missingRows := st.missingRows ++ [r.1 + 2] }) :=
  ⟨step_of_seen pm st r, step_of_missing pm st r⟩

/-- Witness for C2: the duplicate row `A` at index 1 leaves the state after
the first (missing, flagged) occurrence unchanged. -/
theorem c2_witness :
    step [] ⟨[[0x41]], [], [], [2]⟩ (1, [0x41]) = .ok ⟨[[0x41]], [], [], [2]⟩ :=
  (c2_duplicate_rows_skipped [] ⟨[[0x41]], [], [], [2]⟩ (1, [0x41])).1 (by decide)

/-- Counterexample to C3: the scan buckets the PDF with stem `（）` under the
empty key, and a ledger row whose field normalizes to the empty key then
matches that bucket — pages are appended, the key is marked used, and the
row is not flagged, instead of being treated as Missing. -/
theorem c3_counterexample :
    processRows (build_pdf_map [docEmptyKey]) [(0, [])] initPState =
      .ok ⟨[[]], [[]], [1, 2], []⟩ ∧
    ([1, 2] : List Nat) ≠ [] := by
  constructor
  · rfl
  · decide

/-- C3 as amended: there is no guard for the empty normalized key — an
empty-key row is treated exactly like any other key: it is Missing (flagged)
only when the pool has no bucket under the empty key, and it matches the
empty-key bucket (consuming its pages) whenever the scan has bucketed
documents under the empty string. -/
theorem c3_empty_key_unguarded (pm : List (Text × List Doc)) (st : PState)
    (r : Nat × Text) (hkey : company_from_subject r.2 = [])
    (hnew : [] ∉ st.seen) :
    (mapGet pm [] = [] → step pm st r = .ok { st with
      seen := st.seen ++ [[]],
      missingRows := st.missingRows ++ [r.1 + 2] }) ∧
    (∀ pgs, mapGet pm [] ≠ [] → appendBucket (mapGet pm []) = .ok pgs →
      step pm st r = .ok { st with
        seen := st.seen ++ [[]],
        used := st.used ++ [[]],
        bundle := st.bundle ++ pgs }) := by
  constructor
  · intro h2
    have h1 : company_from_subject r.2 ∉ st.seen := by rw [hkey]; exact hnew
    have h2b : mapGet pm (company_from_subject r.2) = [] := by rw [hkey]; exact h2
    have hs := step_of_missing pm st r h1 h2b
    rw [hkey] at hs
    exact hs
  · intro pgs h2 h3
    have h1 : company_from_subject r.2 ∉ st.seen := by rw [hkey]; exact hnew
    have h2b : mapGet pm (company_from_subject r.2) ≠ [] := by rw [hkey]; exact h2
    have h3b : appendBucket (mapGet pm (company_from_subject r.2)) = .ok pgs := by
      rw [hkey]; exact h3
    have hs := step_of_matched pm st r pgs h1 h2b h3b
    rw [hkey] at hs
    exact hs

/-- Witness for C3: the empty-key row matches the empty-key bucket built
from `docEmptyKey`, appending its two pages. -/
theorem c3_witness :
    step (build_pdf_map [docEmptyKey]) initPState (0, []) =
      .ok ⟨[[]], [[]], [1, 2], []⟩ :=
  (c3_empty_key_unguarded (build_pdf_map [docEmptyKey]) initPState (0, [])
      rfl (by decide)).2 [1, 2] (by decide) rfl

/-- Counterexample to C5: `docBroken` carries the `.pdf` extension, so the
scan keeps it in its bucket without opening it; when a ledger row matches
that bucket, the page-extraction failure is an uncaught exception and the
whole run fails — the document is neither skipped nor non-fatal. -/
theorem c5_counterexample :
    build_pdf_map [docBroken] = [([0x4B], [docBroken])] ∧
    runAll [docBroken] [⟨true, [[0x41, 0x5F, 0x4B]]⟩] = .error () := by
  constructor
  · rfl
  · rfl

/-- C5 as amended: only a document that lacks the `.pdf` extension and whose
open/read fails during the magic-header check is skipped (excluded from the
pool); a pooled document that fails to parse at page-extraction time makes
the bucket's page loop — and hence the ledger's processing — fail with an
uncaught error. -/
theorem c5_unreadable_document (d : Doc) (bucket : List Doc)
    (pm : List (Text × List Doc)) (st : PState) (r : Nat × Text) :
    (d.extPdf = false → d.canRead5 = false →
      is_pdf_file d = false ∧ build_pdf_map [d] = []) ∧
    (d ∈ bucket → d.parseOk = false → appendBucket bucket = .error ()) ∧
    (company_from_subject r.2 ∉ st.seen →
      mapGet pm (company_from_subject r.2) ≠ [] →
      appendBucket (mapGet pm (company_from_subject r.2)) = .error () →
      step pm st r = .error ()) := by
  refine ⟨?_, ?_, ?_⟩
  · intro h1 h2
    constructor
    · unfold is_pdf_file
      rw [h1, h2]
      rfl
    · unfold build_pdf_map
      simp [is_pdf_file, h1, h2]
  · intro hmem hp
    exact appendBucket_error ⟨d, hmem, hp⟩
  · intro h1 h2 h3
    exact step_of_error pm st r h1 h2 h3

/-- Witness for C5: the unreadable non-PDF-named file is excluded from the
pool, while the matched bucket holding `docBroken` fails the page loop and
the row step fails with it. -/
theorem c5_witness :
    is_pdf_file docUnreadable = false ∧
    appendBucket [docBroken] = .error () ∧
    step (build_pdf_map [docBroken]) initPState (0, [0x41, 0x5F, 0x4B]) = .error () :=
  ⟨((c5_unreadable_document docUnreadable [docBroken] (build_pdf_map [docBroken])
      initPState (0, [0x41, 0x5F, 0x4B])).1 rfl rfl).1,
   (c5_unreadable_document docBroken [docBroken] (build_pdf_map [docBroken])
      initPState (0, [0x41, 0x5F, 0x4B])).2.1 (by decide) rfl,
   (c5_unreadable_document docBroken [docBroken] (build_pdf_map [docBroken])
      initPState (0, [0x41, 0x5F, 0x4B])).2.2 (by decide) (by decide) rfl⟩

theorem lexLt_trans : ∀ a b c : Text, lexLt a b = true → lexLt b c = true →
    lexLt a c = true := by
  intro a
  induction a with
  | nil =>
    intro b c h1 h2
    cases b with
    | nil => simp [lexLt] at h1
    | cons y ys =>
      cases c with
      | nil => simp [lexLt] at h2
      | cons z zs => simp [lexLt]
  | cons x xs ih =>
    intro b c h1 h2
    cases b with
    | nil => simp [lexLt] at h1
    | cons y ys =>
      cases c with
      | nil => simp [lexLt] at h2
      | cons z zs =>
        simp only [lexLt, Bool.or_eq_true, Bool.and_eq_true, decide_eq_true_eq] at h1 h2 ⊢
        rcases h1 with h1 | ⟨h1e, h1r⟩ <;> rcases h2 with h2 | ⟨h2e, h2r⟩
        · exact Or.inl (by omega)
        · exact Or.inl (by omega)
        · exact Or.inl (by omega)
        · exact Or.inr ⟨by omega, ih ys zs h1r h2r⟩

theorem lexLt_asymm_eq : ∀ a b : Text, lexLt a b = false → lexLt b a = false →
    a = b := by
  intro a
  induction a with
  | nil =>
    intro b h1 h2
    cases b with
    | nil => rfl
    | cons y ys => simp [lexLt] at h1
  | cons x xs ih =>
    intro b h1 h2
    cases b with
    | nil => simp [lexLt] at h2
    | cons y ys =>
      rcases Nat.lt_trichotomy x y with hxy | hxy | hxy
      · exfalso
        have hlt : lexLt (x :: xs) (y :: ys) = true := by simp [lexLt, hxy]
        rw [hlt] at h1
        exact Bool.noConfusion h1
      · subst hxy
        have e1 : lexLt (x :: xs) (x :: ys) = lexLt xs ys := by simp [lexLt]
        have e2 : lexLt (x :: ys) (x :: xs) = lexLt ys xs := by simp [lexLt]
        rw [e1] at h1
        rw [e2] at h2
        rw [ih ys h1 h2]
      · exfalso
        have hlt : lexLt (y :: ys) (x :: xs) = true := by simp [lexLt, hxy]
        rw [hlt] at h2
        exact Bool.noConfusion h2

theorem keyLe_total : ∀ x y : Text × List Doc, keyLe x y = false → keyLe y x = true := by
  intro x y h
  unfold keyLe at *
  by_cases hlt : lexLt y.1 x.1
  · simp [hlt]
  · have h1 : lexLt x.1 y.1 = false := by
      cases hx : lexLt x.1 y.1
      · rfl
      · rw [hx] at h
        simp at h
    have heq := lexLt_asymm_eq x.1 y.1 h1 (by simpa using hlt)
    rw [heq] at h
    simp at h

theorem keyLe_trans : ∀ x y z : Text × List Doc, keyLe x y = true → keyLe y z = true →
    keyLe x z = true := by
  intro x y z h1 h2
  unfold keyLe at *
  simp only [Bool.or_eq_true, decide_eq_true_eq] at h1 h2 ⊢
  rcases h1 with h1 | h1 <;> rcases h2 with h2 | h2
  · exact Or.inl (lexLt_trans _ _ _ h1 h2)
  · exact Or.inl (by rw [← h2]; exact h1)
  · exact Or.inl (by rw [h1]; exact h2)
  · exact Or.inr (h1.trans h2)

theorem insertLe_perm {α : Type} (le : α → α → Bool) (x : α) :
    ∀ l : List α, (insertLe le x l).Perm (x :: l) := by
  intro l
  induction l with
  | nil => exact List.Perm.refl _
  | cons y ys ih =>
    unfold insertLe
    by_cases h : le x y
    · rw [if_pos h]
    · rw [if_neg h]
      exact (ih.cons y).trans (List.Perm.swap x y ys)

theorem sortLe_perm {α : Type} (le : α → α → Bool) :
    ∀ l : List α, (sortLe le l).Perm l := by
  intro l
  induction l with
  | nil => exact List.Perm.refl _
  | cons x xs ih =>
    unfold sortLe
    exact (insertLe_perm le x (sortLe le xs)).trans (ih.cons x)

theorem pairwise_insertLe {α : Type} {le : α → α → Bool}
    (htot : ∀ a b, le a b = false → le b a = true)
    (htrans : ∀ a b c, le a b = true → le b c = true → le a c = true)
    (x : α) : ∀ l : List α, l.Pairwise (fun a b => le a b = true) →
      (insertLe le x l).Pairwise (fun a b => le a b = true) := by
  intro l
  induction l with
  | nil =>
    intro _
    simp [insertLe]
  | cons y ys ih =>
    intro h
    rw [List.pairwise_cons] at h
    unfold insertLe
    by_cases hxy : le x y
    · rw [if_pos hxy]
      refine List.Pairwise.cons ?_ (List.Pairwise.cons h.1 h.2)
      intro z hz
      rcases List.mem_cons.mp hz with rfl | hz2
      · exact hxy
      · exact htrans x y z hxy (h.1 z hz2)
    · rw [if_neg hxy]
      refine List.Pairwise.cons ?_ (ih h.2)
      intro z hz
      have hz2 : z = x ∨ z ∈ ys := by
        have hmem := (insertLe_perm le x ys).mem_iff.mp hz
        simpa using hmem
      rcases hz2 with rfl | hz2
      · exact htot z y (by simpa using hxy)
      · exact h.1 z hz2

theorem pairwise_sortLe {α : Type} {le : α → α → Bool}
    (htot : ∀ a b, le a b = false → le b a = true)
    (htrans : ∀ a b c, le a b = true → le b c = true → le a c = true) :
    ∀ l : List α, (sortLe le l).Pairwise (fun a b => le a b = true) := by
  intro l
  induction l with
  | nil => simp [sortLe]
  | cons x xs ih =>
    unfold sortLe
    exact pairwise_insertLe htot htrans x _ ih

/-- Counterexample to C9: with leftover buckets `B` (two documents, pages 20
and 21) and `A` (one document, page 10), the global writer iterates them in
ascending key order and produces pages `[10, 20, 21]`, while the descending
document-count order the claim describes would produce `[20, 21, 10]`. -/
theorem c9_counterexample :
    globalBundle exampleLeftovers = .ok [10, 20, 21] ∧
    specGlobalBundleByCount exampleLeftovers = .ok [20, 21, 10] ∧
    ([10, 20, 21] : List Nat) ≠ [20, 21, 10] := by
  refine ⟨rfl, rfl, ?_⟩
  decide

/-- C9 as amended: the global leftover bundle iterates the leftover buckets
sorted in ascending codepoint-lexicographic key order (Python's
`sorted(dict.items())`), appending every page of every document of each
bucket in bucket order: the iteration order is a key-sorted permutation of
the accumulated leftover dict. -/
theorem c9_global_bundle_sorted_by_key (g : List (Text × List Doc)) :
    ∃ p : List (Text × List Doc), p.Perm g ∧
      p.Pairwise (fun a b => keyLe a b = true) ∧
      globalBundle g = appendPairs p :=
  ⟨sortLe keyLe g, sortLe_perm keyLe g,
    pairwise_sortLe keyLe_total keyLe_trans g, rfl⟩

/-- C1 at its failing input: the pool has keys `K` (one document, page 1)
and `M` (one document, page 2); ledger 1 references and matches `K`, ledger
2 references only the missing key `Z`. The claim says the global leftover
bundle covers exactly the never-seen key `M`, once — pages `[2]`. The code
instead accumulates the union of per-ledger unmatched dicts: `K` (seen and
consumed by ledger 1) is contributed by ledger 2, and `M` is contributed by
both ledgers, so its document appears twice; the bundle is `[1, 2, 2]`. -/
theorem c1_global_leftover_failing_input :
    runAll [docK, docM]
      [⟨true, [[0x41, 0x5F, 0x4B]]⟩, ⟨true, [[0x41, 0x5F, 0x5A]]⟩] =
      .ok ⟨[([0x4D], [docM, docM]), ([0x4B], [docK])], [1, 2, 2]⟩ ∧
    ([1, 2, 2] : List Nat) ≠ [2] := by
  refine ⟨rfl, ?_⟩
  decide

/-- C4 at its failing input: a ledger without the required `科目名称` column
makes `process_excel` return `None`; the claim (and the function's own
banner) says only that ledger is skipped, but the caller immediately calls
`.items()` on the `None`, so the whole run — including the subsequent ledger
and the final leftover computation — is aborted by the `AttributeError`. -/
theorem c4_missing_column_aborts_run :
    process_excel (build_pdf_map []) ⟨false, []⟩ = .ok none ∧
    runAll [] [⟨true, []⟩, ⟨false, []⟩, ⟨true, []⟩] = .error () :=
  ⟨rfl, rfl⟩

end RI
